import Mathlib

/-
Verification of the EOS Energy Optimizer integration
(`api.py` EOSApiClient and `coordinator.py` EOSDataUpdateCoordinator).

Python floats are modelled by rationals (ℚ); Python's `int()` conversion,
which truncates toward zero, is modelled by `truncInt`.  Lists of floats
become `List ℚ`.  Timestamps are represented by their signed offset from
the reference time `now` (`(t - now).total_seconds() / 60` in minutes),
which is the only form in which the code consumes them.
-/

namespace EOS

/-- Python `int()` on a float: truncation toward zero. -/
def truncInt (q : ℚ) : Int := if 0 ≤ q then ⌊q⌋ else ⌈q⌉

/-- The fixed optimization horizon `EOS_TGT_DURATION = 48` hours. -/
def EOS_TGT_DURATION : Nat := 48

/-- Embedding of `EOSApiClient._expand_hourly_to_15min`: each of the first
48 hourly prices is repeated four times, then the result is padded with
0.30 to 192 entries and truncated to 192. -/
def expandHourlyTo15min (hourly : List ℚ) : List ℚ :=
  let base := (hourly.take 48).flatMap (fun p => List.replicate 4 p)
  ((base ++ List.replicate (192 - base.length) (3/10)).take 192)

theorem length_bind_replicate (l : List ℚ) :
    (l.flatMap (fun p => List.replicate 4 p)).length = 4 * l.length := by
  induction l with
  | nil => simp
  | cons a t ih =>
      simp only [List.flatMap_cons, List.length_append, List.length_replicate, ih,
        List.length_cons]
      ring

theorem getD_bind_replicate (l : List ℚ) (i : Nat) (h : i < 4 * l.length) :
    (l.flatMap (fun p => List.replicate 4 p)).getD i 0 = l.getD (i / 4) 0 := by
  induction l generalizing i with
  | nil => simp at h
  | cons a t ih =>
      by_cases h4 : i < 4
      · interval_cases i <;> simp [List.flatMap]
      · have hge : 4 ≤ i := Nat.le_of_not_lt h4
        have hidx : i / 4 = (i - 4) / 4 + 1 := by omega
        have hrec : i - 4 < 4 * t.length := by simp at h; omega
        have := ih (i - 4) hrec
        have hsplit : (a :: t).flatMap (fun p => List.replicate 4 p)
            = a :: a :: a :: a :: t.flatMap (fun p => List.replicate 4 p) := by
          simp [List.flatMap, List.replicate]
        rw [hsplit, hidx]
        have h4' : ∀ j, (a :: a :: a :: a :: t.flatMap (fun p => List.replicate 4 p)).getD (j + 4) 0
            = (t.flatMap (fun p => List.replicate 4 p)).getD j 0 := by
          intro j; rfl
        have hi4 : i = (i - 4) + 4 := by omega
        rw [hi4, h4']
        simpa using this

theorem expandHourlyTo15min_length (hourly : List ℚ) :
    (expandHourlyTo15min hourly).length = 192 := by
  unfold expandHourlyTo15min
  have hb : ((hourly.take 48).flatMap (fun p => List.replicate 4 p)).length = 4 * (hourly.take 48).length :=
    length_bind_replicate _
  have hle : (hourly.take 48).length ≤ 48 := by
    simp [List.length_take]
  simp only [List.length_take, List.length_append, List.length_replicate]
  omega

theorem getD_replicate_of_lt (k : Nat) (a : ℚ) (j : Nat) (h : j < k) :
    (List.replicate k a).getD j 0 = a := by
  rw [List.getD_eq_getElem _ _ (by simpa using h)]
  simp

theorem getD_take_of_lt (l : List ℚ) (k i : Nat) (h1 : i < k) (h2 : i < l.length) :
    (l.take k).getD i 0 = l.getD i 0 := by
  rw [List.getD_eq_getElem _ _ (by simp; omega),
    List.getD_eq_getElem _ _ h2]
  simp [List.getElem_take]

theorem expandHourlyTo15min_eq_append (hourly : List ℚ) :
    expandHourlyTo15min hourly
      = ((hourly.take 48).flatMap (fun p => List.replicate 4 p))
        ++ List.replicate (192 - 4 * (hourly.take 48).length) (3/10) := by
  have hb := length_bind_replicate (hourly.take 48)
  have hle : (hourly.take 48).length ≤ 48 := by simp [List.length_take]
  show List.take 192 (((hourly.take 48).flatMap fun p => List.replicate 4 p)
      ++ List.replicate
        (192 - ((hourly.take 48).flatMap fun p => List.replicate 4 p).length) (3/10)) = _
  rw [hb]
  apply List.take_of_length_le
  simp only [List.length_append, List.length_replicate, hb]
  omega

/-- C4: `_expand_hourly_to_15min` always returns exactly 192 elements; with at
least 48 input hours, slot `i` is input hour `i / 4` (each hourly price
repeated four times); with fewer than 48 input hours the trailing slots past
the expanded input are 0.30. -/
theorem expand_hourly_to_15min_spec (hourly : List ℚ) :
    (expandHourlyTo15min hourly).length = 192
    ∧ (48 ≤ hourly.length → ∀ i, i < 192 →
        (expandHourlyTo15min hourly).getD i 0 = hourly.getD (i / 4) 0)
    ∧ (hourly.length < 48 → ∀ i, 4 * hourly.length ≤ i → i < 192 →
        (expandHourlyTo15min hourly).getD i 0 = 3/10) := by
  refine ⟨expandHourlyTo15min_length hourly, ?_, ?_⟩
  · intro h48 i hi
    rw [expandHourlyTo15min_eq_append]
    have hlen : (hourly.take 48).length = 48 := by simp [List.length_take]; omega
    have hbase : i < 4 * (hourly.take 48).length := by omega
    rw [List.getD_append _ _ _ _ (by rw [length_bind_replicate]; exact hbase),
      getD_bind_replicate _ _ hbase]
    exact getD_take_of_lt _ _ _ (by omega) (by omega)
  · intro h48 i hlo hhi
    rw [expandHourlyTo15min_eq_append]
    have hlen : (hourly.take 48).length = hourly.length := by
      simp [List.length_take]; omega
    rw [List.getD_append_right _ _ _ _ (by rw [length_bind_replicate, hlen]; omega)]
    rw [length_bind_replicate, hlen]
    exact getD_replicate_of_lt _ _ _ (by omega)

/-- Witness for C4 at a concrete input: a 2-hour price list. -/
theorem expand_hourly_to_15min_spec_witness :
    (expandHourlyTo15min [1/2, 1/4]).getD 100 0 = 3/10 :=
  (expand_hourly_to_15min_spec [1/2, 1/4]).2.2 (by decide) 100 (by decide) (by decide)

/-! ### `_build_optimization_request` (claim C1)

The `ems` object of the optimization request.  Field names follow the JSON
keys built in `api.py`.  Inputs are the client's `pv_forecast`, `prices`
and `load_profile` lists and the configured feed-in price. -/

structure EmsData where
  pv_prognose_wh : List ℚ
  strompreis_euro_pro_wh : List ℚ
  einspeiseverguetung_euro_pro_wh : List ℚ
  gesamtlast : List ℚ

/-- Embedding of the `ems` part of `_build_optimization_request`.
Each input is truncated to 48 entries (replaced by a constant default list
when empty), then padded to 48 entries: the PV forecast with `0`, prices and
load with their last element (the `while` loop appends `lst[-1]`, which stays
the same value at every iteration, hence the `replicate` of the last
element).  Prices are converted from EUR/kWh to EUR/Wh by dividing by 1000,
and the feed-in tariff, likewise divided by 1000, fills all 48 hours. -/
def buildEms (pv prices load : List ℚ) (feedIn : ℚ) : EmsData :=
  let pv0 := if pv.isEmpty then List.replicate EOS_TGT_DURATION 0 else pv.take EOS_TGT_DURATION
  let pv1 := pv0 ++ List.replicate (EOS_TGT_DURATION - pv0.length) 0
  let pr0 := if prices.isEmpty then List.replicate EOS_TGT_DURATION (3/10)
             else prices.take EOS_TGT_DURATION
  let pr1 := pr0 ++ List.replicate (EOS_TGT_DURATION - pr0.length) (pr0.getLastD (3/10))
  let ld0 := if load.isEmpty then List.replicate EOS_TGT_DURATION 400
             else load.take EOS_TGT_DURATION
  let ld1 := ld0 ++ List.replicate (EOS_TGT_DURATION - ld0.length) (ld0.getLastD 400)
  { pv_prognose_wh := pv1
    strompreis_euro_pro_wh := pr1.map (fun p => p / 1000)
    einspeiseverguetung_euro_pro_wh := List.replicate EOS_TGT_DURATION (feedIn / 1000)
    gesamtlast := ld1 }

theorem padTo48_getD_lt (l0 : List ℚ) (c : ℚ) (i : Nat) (h : i < l0.length) :
    (l0 ++ List.replicate (48 - l0.length) c).getD i 0 = l0.getD i 0 :=
  List.getD_append _ _ _ _ h

theorem padTo48_getD_ge (l0 : List ℚ) (c : ℚ) (i : Nat) (h1 : l0.length ≤ i) (h2 : i < 48) :
    (l0 ++ List.replicate (48 - l0.length) c).getD i 0 = c := by
  rw [List.getD_append_right _ _ _ _ h1]
  exact getD_replicate_of_lt _ _ _ (by omega)

theorem padTo48_length (l0 : List ℚ) (c : ℚ) (h : l0.length ≤ 48) :
    (l0 ++ List.replicate (48 - l0.length) c).length = 48 := by
  simp only [List.length_append, List.length_replicate]
  omega

theorem getD_map_div1000 (l : List ℚ) (i : Nat) (h : i < l.length) :
    (l.map (fun p => p / 1000)).getD i 0 = l.getD i 0 / 1000 := by
  rw [List.getD_eq_getElem _ _ (by simpa using h), List.getD_eq_getElem _ _ h]
  simp

theorem getLastD_of_ne_nil (l : List ℚ) (h : l ≠ []) (d : ℚ) :
    l.getLastD d = l.getLast h := by
  rw [List.getLastD_eq_getLast?, List.getLast?_eq_getLast l h]
  rfl

theorem trunc48_length (d : ℚ) (l : List ℚ) :
    (if l.isEmpty then List.replicate 48 d else l.take 48).length ≤ 48 := by
  by_cases h : l.isEmpty <;> simp [h, List.length_take]

theorem trunc48_getD (d : ℚ) (l : List ℚ) (i : Nat) (h1 : i < 48) (h2 : i < l.length) :
    (if l.isEmpty then List.replicate 48 d else l.take 48).getD i 0 = l.getD i 0 := by
  have hne : ¬ l.isEmpty := by
    cases l
    · simp at h2
    · simp
  rw [if_neg hne]
  exact getD_take_of_lt _ _ _ h1 h2

theorem trunc48_len_lt (d : ℚ) (l : List ℚ) (i : Nat) (h1 : i < 48) (h2 : i < l.length) :
    i < (if l.isEmpty then List.replicate 48 d else l.take 48).length := by
  by_cases h : l.isEmpty <;> simp [h, List.length_take] <;> omega

theorem trunc48_of_short (d : ℚ) (l : List ℚ) (hne : l ≠ []) (hlen : l.length ≤ 48) :
    (if l.isEmpty then List.replicate 48 d else l.take 48) = l := by
  rw [if_neg (by simpa [List.isEmpty_iff] using hne)]
  exact List.take_of_length_le hlen

theorem trunc48_of_empty (d : ℚ) (l : List ℚ) (h : l = []) :
    (if l.isEmpty then List.replicate 48 d else l.take 48) = List.replicate 48 d := by
  subst h
  rfl

/-- C1: the `ems` object of `_build_optimization_request` has four arrays of
exactly 48 entries; inputs longer than 48 are truncated; a short PV forecast
is padded with 0; short price and load arrays are padded by repeating their
last element (with 0.30 resp. 400 filling all 48 slots when the input is
empty); `strompreis_euro_pro_wh[i]` is the i-th hourly price divided by 1000,
and `einspeiseverguetung_euro_pro_wh` is the feed-in price divided by 1000,
repeated 48 times. -/
theorem build_optimization_request_ems_spec (pv prices load : List ℚ) (feedIn : ℚ) :
    (buildEms pv prices load feedIn).pv_prognose_wh.length = 48
    ∧ (buildEms pv prices load feedIn).strompreis_euro_pro_wh.length = 48
    ∧ (buildEms pv prices load feedIn).einspeiseverguetung_euro_pro_wh.length = 48
    ∧ (buildEms pv prices load feedIn).gesamtlast.length = 48
    ∧ (∀ i, i < 48 → i < pv.length →
        (buildEms pv prices load feedIn).pv_prognose_wh.getD i 0 = pv.getD i 0)
    ∧ (∀ i, i < 48 → pv.length ≤ i →
        (buildEms pv prices load feedIn).pv_prognose_wh.getD i 0 = 0)
    ∧ (∀ i, i < 48 → i < prices.length →
        (buildEms pv prices load feedIn).strompreis_euro_pro_wh.getD i 0
          = prices.getD i 0 / 1000)
    ∧ (∀ hne : prices ≠ [], ∀ i, i < 48 → prices.length ≤ i →
        (buildEms pv prices load feedIn).strompreis_euro_pro_wh.getD i 0
          = prices.getLast hne / 1000)
    ∧ (prices = [] → ∀ i, i < 48 →
        (buildEms pv prices load feedIn).strompreis_euro_pro_wh.getD i 0
          = (3/10) / 1000)
    ∧ (∀ i, i < 48 → i < load.length →
        (buildEms pv prices load feedIn).gesamtlast.getD i 0 = load.getD i 0)
    ∧ (∀ hne : load ≠ [], ∀ i, i < 48 → load.length ≤ i →
        (buildEms pv prices load feedIn).gesamtlast.getD i 0 = load.getLast hne)
    ∧ (load = [] → ∀ i, i < 48 →
        (buildEms pv prices load feedIn).gesamtlast.getD i 0 = 400)
    ∧ (buildEms pv prices load feedIn).einspeiseverguetung_euro_pro_wh
        = List.replicate 48 (feedIn / 1000) := by
  simp only [buildEms, EOS_TGT_DURATION]
  refine ⟨?_, ?_, ?_, ?_, ?_, ?_, ?_, ?_, ?_, ?_, ?_, ?_, ?_⟩
  · exact padTo48_length _ _ (trunc48_length _ _)
  · rw [List.length_map]
    exact padTo48_length _ _ (trunc48_length _ _)
  · simp
  · exact padTo48_length _ _ (trunc48_length _ _)
  · intro i h1 h2
    rw [padTo48_getD_lt _ _ _ (trunc48_len_lt _ _ _ h1 h2)]
    exact trunc48_getD _ _ _ h1 h2
  · intro i h1 h2
    by_cases hpv : pv = []
    · rw [trunc48_of_empty 0 pv hpv]
      rw [padTo48_getD_lt _ _ _ (by simp; omega)]
      exact getD_replicate_of_lt _ _ _ (by omega)
    · rw [trunc48_of_short 0 pv hpv (by omega)]
      exact padTo48_getD_ge _ _ _ h2 h1
  · intro i h1 h2
    rw [getD_map_div1000 _ _ (by rw [padTo48_length _ _ (trunc48_length _ _)]; exact h1),
      padTo48_getD_lt _ _ _ (trunc48_len_lt _ _ _ h1 h2), trunc48_getD _ _ _ h1 h2]
  · intro hne i h1 h2
    rw [getD_map_div1000 _ _ (by rw [padTo48_length _ _ (trunc48_length _ _)]; exact h1)]
    rw [trunc48_of_short (3/10) prices hne (by omega)]
    rw [padTo48_getD_ge _ _ _ h2 h1]
    rw [getLastD_of_ne_nil prices hne]
  · intro hp i h1
    rw [getD_map_div1000 _ _ (by rw [padTo48_length _ _ (trunc48_length _ _)]; exact h1)]
    rw [trunc48_of_empty (3/10) prices hp]
    rw [padTo48_getD_lt _ _ _ (by simp; omega)]
    rw [getD_replicate_of_lt _ _ _ (by omega)]
  · intro i h1 h2
    rw [padTo48_getD_lt _ _ _ (trunc48_len_lt _ _ _ h1 h2)]
    exact trunc48_getD _ _ _ h1 h2
  · intro hne i h1 h2
    rw [trunc48_of_short 400 load hne (by omega)]
    rw [padTo48_getD_ge _ _ _ h2 h1]
    exact getLastD_of_ne_nil load hne 400
  · intro hl i h1
    rw [trunc48_of_empty 400 load hl]
    rw [padTo48_getD_lt _ _ _ (by simp; omega)]
    exact getD_replicate_of_lt _ _ _ (by omega)
  · trivial

/-- Witness for C1: a concrete client state with a short PV forecast, a
2-hour price list and an empty load profile. -/
theorem build_optimization_request_ems_spec_witness :
    (buildEms [100] [1/5, 2/5] [] (8/100)).strompreis_euro_pro_wh.getD 5 0
      = (2/5) / 1000 := by
  have h := build_optimization_request_ems_spec [100] [1/5, 2/5] [] (8/100)
  have h8 := h.2.2.2.2.2.2.2.1 (by decide) 5 (by decide) (by decide)
  rw [h8]
  norm_num [List.getLast]

/-! ### Control state (`const.py` InverterMode, `api.py` `_update_control_state`)
and the optimization cycle (`async_run_optimization`), claims C2, C3, C9. -/

/-- The `InverterMode` IntEnum of `const.py`. -/
inductive InverterMode where
  | auto
  | startup
  | chargeFromGrid
  | avoidDischarge
  | dischargeAllowed
  deriving DecidableEq, Repr

/-- The fields of the `ControlState` dataclass that `_update_control_state`
reads or writes (`override_end_time` and `override_power` are never touched
by it and are omitted). -/
structure ControlState where
  mode : InverterMode
  ac_charge_demand : ℚ
  dc_charge_demand : ℚ
  discharge_allowed : Bool
  override_active : Bool
  deriving DecidableEq, Repr

/-- The schedule fields of the `OptimizationResult` dataclass consumed by
`_update_control_state`. -/
structure OptimizationResult where
  ac_charge : List ℚ
  dc_charge : List ℚ
  discharge_allowed : List Bool
  deriving DecidableEq, Repr

/-- Embedding of `EOSApiClient._update_control_state`.  `maxGrid` and
`maxPv` are the configured `max_grid_charge_rate` and `max_pv_charge_rate`.
If any schedule list is empty the function returns early without touching
the control state; otherwise the three demand fields are set from the first
schedule entries and, unless an override is active, the mode is derived
from the freshly written fields. -/
def updateControlState (maxGrid maxPv : ℚ) (opt : OptimizationResult)
    (c : ControlState) : ControlState :=
  if opt.ac_charge = [] ∨ opt.dc_charge = [] ∨ opt.discharge_allowed = [] then c
  else
    let c1 := { c with ac_charge_demand := opt.ac_charge.headD 0 * maxGrid }
    let c2 := { c1 with dc_charge_demand := opt.dc_charge.headD 0 * maxPv }
    let c3 := { c2 with discharge_allowed := opt.discharge_allowed.headD true }
    if c3.override_active then c3
    else if 0 < c3.ac_charge_demand then { c3 with mode := .chargeFromGrid }
    else if c3.discharge_allowed = false then { c3 with mode := .avoidDischarge }
    else { c3 with mode := .dischargeAllowed }

/-- C3: after a successful response with non-empty schedules,
`_update_control_state` sets `ac_charge_demand = ac_charge[0] * max_grid_charge_rate`
and `dc_charge_demand = dc_charge[0] * max_pv_charge_rate`, and — when no
override is active — the mode becomes CHARGE_FROM_GRID if the new AC demand
is positive, else AVOID_DISCHARGE if `discharge_allowed[0]` is false, else
DISCHARGE_ALLOWED. -/
theorem update_control_state_spec (maxGrid maxPv : ℚ) (opt : OptimizationResult)
    (c : ControlState)
    (hac : opt.ac_charge ≠ []) (hdc : opt.dc_charge ≠ [])
    (hda : opt.discharge_allowed ≠ []) :
    (updateControlState maxGrid maxPv opt c).ac_charge_demand
        = opt.ac_charge.headD 0 * maxGrid
    ∧ (updateControlState maxGrid maxPv opt c).dc_charge_demand
        = opt.dc_charge.headD 0 * maxPv
    ∧ (c.override_active = false →
        (updateControlState maxGrid maxPv opt c).mode
          = (if 0 < opt.ac_charge.headD 0 * maxGrid then InverterMode.chargeFromGrid
             else if opt.discharge_allowed.headD true = false then InverterMode.avoidDischarge
             else InverterMode.dischargeAllowed)) := by
  unfold updateControlState
  rw [if_neg (by simp [hac, hdc, hda])]
  dsimp only
  refine ⟨by split_ifs <;> rfl, by split_ifs <;> rfl, ?_⟩
  intro h
  simp only [h]
  split_ifs with h1 h2 h3 h4 h5 <;> simp_all

/-- Witness for C3: a concrete optimization result with grid charging in the
first hour. -/
theorem update_control_state_spec_witness :
    (updateControlState 5000 5000
        ⟨[1, 0], [0, 1], [false, true]⟩
        ⟨.auto, 0, 0, true, false⟩).mode = InverterMode.chargeFromGrid := by
  have h := update_control_state_spec 5000 5000
      ⟨[1, 0], [0, 1], [false, true]⟩
      ⟨.auto, 0, 0, true, false⟩
      (by decide) (by decide) (by decide)
  rw [h.2.2 rfl]
  norm_num

/-- C9: if any of the three schedules of the optimization result is empty,
`_update_control_state` leaves the whole control state unchanged. -/
theorem update_control_state_frame (maxGrid maxPv : ℚ) (opt : OptimizationResult)
    (c : ControlState)
    (h : opt.ac_charge = [] ∨ opt.dc_charge = [] ∨ opt.discharge_allowed = []) :
    updateControlState maxGrid maxPv opt c = c := by
  unfold updateControlState
  rw [if_pos h]

/-- Witness for C9: an empty AC schedule with otherwise populated lists. -/
theorem update_control_state_frame_witness :
    updateControlState 5000 3000 ⟨[], [1], [true]⟩ ⟨.auto, 7, 8, false, true⟩
      = ⟨.auto, 7, 8, false, true⟩ :=
  update_control_state_frame 5000 3000 _ _ (Or.inl rfl)

/-- Outcome of the HTTP round trip and subsequent response handling inside
the `try` block of `async_run_optimization`.  `timeout` is
`asyncio.TimeoutError`, `connError` is `aiohttp.ClientError`, `otherExc`
is any other exception raised inside the `try` block (including the data
updates before the request), and `resp status ok r` is an HTTP response
with the given status whose 200-branch processing either yields a parsed
`OptimizationResult` (`parsed r`) or raises (`parseExc`). -/
inductive ParseOutcome where
  | parsed (r : OptimizationResult)
  | parseExc
  deriving DecidableEq, Repr

inductive RequestOutcome where
  | timeout
  | connError
  | otherExc
  | resp (status : Nat) (body : ParseOutcome)
  deriving DecidableEq, Repr

/-- The client fields `async_run_optimization` writes: the stored
optimization result, the control state derived from it, and the coarse
`optimization_state` status string. -/
structure ClientData where
  control : ControlState
  optimization : OptimizationResult
  optimization_state : String
  deriving DecidableEq, Repr

/-- Embedding of the `try`/`except` structure of
`EOSApiClient.async_run_optimization`.  The catch clauses, in source order:
`asyncio.TimeoutError` sets the state to "timeout", `aiohttp.ClientError`
to "connection_error", any other exception to "error".  Within the `try`
block, a non-200 status sets the state to "error"; on a 200 response the
parsed result is stored, the control state is updated and the state becomes
"ok" — unless the 200-branch processing raises, which lands in the generic
`except Exception` handler ("error"). -/
def runOptimizationStep (maxGrid maxPv : ℚ) (o : RequestOutcome)
    (d : ClientData) : ClientData :=
  match o with
  | .timeout => { d with optimization_state := "timeout" }
  | .connError => { d with optimization_state := "connection_error" }
  | .otherExc => { d with optimization_state := "error" }
  | .resp status body =>
      if status = 200 then
        match body with
        | .parsed r =>
            let d1 := { d with optimization := r }
            let d2 := { d1 with
              control := updateControlState maxGrid maxPv r d1.control }
            { d2 with optimization_state := "ok" }
        | .parseExc => { d with optimization_state := "error" }
      else { d with optimization_state := "error" }

/-- C2: `async_run_optimization` surfaces every failure as a status string
instead of propagating it (the embedded handler is total and always yields
one of the four coarse states): timeout gives "timeout", a connection error
"connection_error", any other exception "error", a non-200 response
"error", and only a successfully parsed 200 response stores the result and
sets "ok". -/
theorem run_optimization_state_spec (maxGrid maxPv : ℚ) (d : ClientData) :
    (∀ o : RequestOutcome,
        (runOptimizationStep maxGrid maxPv o d).optimization_state
          ∈ (["ok", "error", "timeout", "connection_error"] : List String))
    ∧ (runOptimizationStep maxGrid maxPv .timeout d).optimization_state = "timeout"
    ∧ (runOptimizationStep maxGrid maxPv .connError d).optimization_state
        = "connection_error"
    ∧ (runOptimizationStep maxGrid maxPv .otherExc d).optimization_state = "error"
    ∧ (∀ status body, status ≠ 200 →
        (runOptimizationStep maxGrid maxPv (.resp status body) d).optimization_state
          = "error")
    ∧ (∀ body,
        (runOptimizationStep maxGrid maxPv (.resp 200 body) d).optimization_state
          = "ok" → ∃ r, body = .parsed r)
    ∧ (∀ r,
        (runOptimizationStep maxGrid maxPv (.resp 200 (.parsed r)) d).optimization_state
          = "ok"
        ∧ (runOptimizationStep maxGrid maxPv (.resp 200 (.parsed r)) d).optimization = r) := by
  refine ⟨?_, rfl, rfl, rfl, ?_, ?_, ?_⟩
  · intro o
    cases o with
    | timeout => simp [runOptimizationStep]
    | connError => simp [runOptimizationStep]
    | otherExc => simp [runOptimizationStep]
    | resp status body =>
        by_cases h : status = 200
        · cases body <;> simp [runOptimizationStep, h]
        · simp [runOptimizationStep, h]
  · intro status body h
    cases body <;> simp [runOptimizationStep, h]
  · intro body h
    cases body with
    | parsed r => exact ⟨r, rfl⟩
    | parseExc => simp [runOptimizationStep] at h
  · intro r
    exact ⟨rfl, rfl⟩

/-- Witness for C2: a 503 response at a concrete client state yields the
"error" status. -/
theorem run_optimization_state_spec_witness :
    (runOptimizationStep 5000 5000 (.resp 503 .parseExc)
        ⟨⟨.auto, 0, 0, true, false⟩, ⟨[], [], []⟩, "unknown"⟩).optimization_state
      = "error" :=
  (run_optimization_state_spec 5000 5000
      ⟨⟨.auto, 0, 0, true, false⟩, ⟨[], [], []⟩, "unknown"⟩).2.2.2.2.1
    503 .parseExc (by decide)

/-! ### Price parsing (`_parse_tibber_prices_dual`, `_parse_entsoe_prices_dual`),
claims C5 and C6.

A price entry is represented by the minute offset of its `from`/`startsAt`
timestamp relative to `now` (`(from_time - now).total_seconds() / 60`) and
its `price`/`total` value.  A `none` component models a missing key, a
falsy timestamp string, or a value whose parsing raises (all of which make
the loop `continue` with that entry). -/

structure PriceEntry where
  fromMin : Option ℚ
  price : Option ℚ
  deriving DecidableEq, Repr

/-- The 15-minute-slot dictionary insertion a single Tibber entry performs:
`slot_15min = int(total_minutes_diff / 15)`; if `-4 <= slot_15min < 192`
the price is stored under `max(0, slot_15min)` (the redundant `< 192`
re-check of the source is kept). -/
def tibberQuarterKV (e : PriceEntry) : Option (Int × ℚ) :=
  match e.fromMin, e.price with
  | some m, some p =>
      let s := truncInt (m / 15)
      if -4 ≤ s ∧ s < 192 then
        let idx := max 0 s
        if idx < 192 then some (idx, p) else none
      else none
  | _, _ => none

/-- The hourly-dictionary insertion a single Tibber entry performs:
`hours_diff = total_minutes_diff / 60`; if `-1 <= hours_diff < 48` the
price is appended to the bucket `max(0, int(hours_diff))` (again keeping
the redundant `< 48` re-check). -/
def tibberHourKV (e : PriceEntry) : Option (Int × ℚ) :=
  match e.fromMin, e.price with
  | some m, some p =>
      let hd := m / 60
      if -1 ≤ hd ∧ hd < 48 then
        let hidx := max 0 (truncInt hd)
        if hidx < 48 then some (hidx, p) else none
      else none
  | _, _ => none

/-- One iteration of the entry loop of `_parse_tibber_prices_dual`.  The two
dictionaries are modelled by their insertion logs (`hourly_prices` appends
to a per-key bucket, `prices_15min_dict` overwrites, i.e. the last insertion
for a key wins). -/
def tibberStep (acc : List (Int × ℚ) × List (Int × ℚ)) (e : PriceEntry) :
    List (Int × ℚ) × List (Int × ℚ) :=
  ((match tibberHourKV e with
    | some kv => acc.1 ++ [kv]
    | none => acc.1),
   (match tibberQuarterKV e with
    | some kv => acc.2 ++ [kv]
    | none => acc.2))

/-- The `prices_hourly` array built after the loop: start from 48 slots of
0.30 and overwrite slot `h` with the average of bucket `h` whenever that
bucket is non-empty. -/
def hourlyFromLog (log : List (Int × ℚ)) : List ℚ :=
  (List.range 48).map fun (h : Nat) =>
    let ps := (log.filter (fun kv => kv.1 = (h : Int))).map Prod.snd
    if ps = [] then 3/10 else ps.sum / ps.length

/-- The `prices_15min` array built after the loop when the 15-minute
dictionary is non-empty: start from 192 slots of 0.30 and overwrite each
slot with its dictionary value (the last insertion for that slot). -/
def quarterFromLog (log : List (Int × ℚ)) : List ℚ :=
  (List.range 192).map fun (s : Nat) =>
    match log.reverse.find? (fun kv => kv.1 = (s : Int)) with
    | some kv => kv.2
    | none => 3/10

/-- Embedding of `_parse_tibber_prices_dual`: run the entry loop, average
the hourly buckets, and fall back to the four-fold expansion of the hourly
series when no entry produced a 15-minute slot. -/
def parseTibberPricesDual (entries : List PriceEntry) : List ℚ × List ℚ :=
  let logs := entries.foldl tibberStep ([], [])
  let hourly := hourlyFromLog logs.1
  let q := if logs.2 = [] then expandHourlyTo15min hourly else quarterFromLog logs.2
  (hourly, q)

theorem foldl_tibberStep_eq (entries : List PriceEntry)
    (acc : List (Int × ℚ) × List (Int × ℚ)) :
    entries.foldl tibberStep acc
      = (acc.1 ++ entries.filterMap tibberHourKV,
         acc.2 ++ entries.filterMap tibberQuarterKV) := by
  induction entries generalizing acc with
  | nil => simp
  | cons e t ih =>
      rw [List.foldl_cons, ih]
      cases hH : tibberHourKV e <;> cases hQ : tibberQuarterKV e <;>
        simp [tibberStep, hH, hQ]

/-- Reference description of the hourly bucket, written from the claim's
wording: the prices of the entries whose timestamp lies between one hour
before `now` (inclusive, i.e. minute offset ≥ -60) and 48 hours after
`now` (exclusive, minute offset < 2880) and whose hour — entries in the
past hour being clamped to hour 0 — equals `h`. -/
def tibberHourContribs (entries : List PriceEntry) (h : Nat) : List ℚ :=
  entries.filterMap fun e =>
    match e.fromMin, e.price with
    | some m, some p =>
        if -60 ≤ m ∧ m < 2880 ∧ (if m < 0 then (0 : Int) else ⌊m / 60⌋) = (h : Int)
        then some p else none
    | _, _ => none

theorem tibberHourKV_char (e : PriceEntry) (h : Nat) :
    (match tibberHourKV e with
     | some kv => if kv.1 = (h : Int) then some kv.2 else none
     | none => none)
    = (match e.fromMin, e.price with
       | some m, some p =>
           if -60 ≤ m ∧ m < 2880 ∧ (if m < 0 then (0 : Int) else ⌊m / 60⌋) = (h : Int)
           then some p else none
       | _, _ => none) := by
  obtain ⟨fm, pr⟩ := e
  cases fm with
  | none => rfl
  | some m =>
    cases pr with
    | none => rfl
    | some p =>
      simp only [tibberHourKV]
      have hiff : ((-1 : ℚ) ≤ m / 60 ∧ m / 60 < 48) ↔ ((-60 : ℚ) ≤ m ∧ m < 2880) := by
        rw [le_div_iff (by norm_num : (0:ℚ) < 60), div_lt_iff (by norm_num : (0:ℚ) < 60)]
        constructor <;> rintro ⟨a, b⟩ <;> constructor <;> linarith
      by_cases hc : (-1 : ℚ) ≤ m / 60 ∧ m / 60 < 48
      · have hm := hiff.mp hc
        have hclamp : max 0 (truncInt (m / 60))
            = (if m < 0 then (0 : Int) else ⌊m / 60⌋) := by
          by_cases hneg : m < 0
          · rw [if_pos hneg]
            have hq : m / 60 < 0 := div_neg_of_neg_of_pos hneg (by norm_num)
            have hle : truncInt (m / 60) ≤ 0 := by
              unfold truncInt
              rw [if_neg (not_le.mpr hq)]
              exact Int.ceil_le.mpr (by push_cast; linarith)
            exact max_eq_left hle
          · rw [if_neg hneg]
            have h0 : (0 : ℚ) ≤ m / 60 := div_nonneg (not_lt.mp hneg) (by norm_num)
            unfold truncInt
            rw [if_pos h0]
            exact max_eq_right (Int.le_floor.mpr (by push_cast; linarith))
        have hlt : (if m < 0 then (0 : Int) else ⌊m / 60⌋) < 48 := by
          by_cases hneg : m < 0
          · simp [hneg]
          · rw [if_neg hneg]
            exact Int.floor_lt.mpr (by push_cast; linarith [hc.2])
        rw [if_pos hc, hclamp, if_pos hlt]
        dsimp only
        by_cases hk : (if m < 0 then (0 : Int) else ⌊m / 60⌋) = (h : Int)
        · rw [if_pos hk, if_pos ⟨hm.1, hm.2, hk⟩]
        · rw [if_neg hk, if_neg (by rintro ⟨_, _, hk'⟩; exact hk hk')]
      · rw [if_neg hc, if_neg (by rintro ⟨h1, h2, _⟩; exact hc (hiff.mpr ⟨h1, h2⟩))]

theorem filterMap_filter_snd (f : PriceEntry → Option (Int × ℚ))
    (l : List PriceEntry) (h : Int) :
    ((l.filterMap f).filter (fun kv => kv.1 = h)).map Prod.snd
      = l.filterMap (fun e =>
          match f e with
          | some kv => if kv.1 = h then some kv.2 else none
          | none => none) := by
  induction l with
  | nil => rfl
  | cons e t ih =>
      cases hf : f e with
      | none => simp [hf, ih]
      | some kv =>
          by_cases hk : kv.1 = h
          · simp [hf, hk, ih]
          · simp [hf, hk, ih]

theorem hourlyFromLog_length (log : List (Int × ℚ)) :
    (hourlyFromLog log).length = 48 := by
  unfold hourlyFromLog
  rw [List.length_map, List.length_range]

theorem quarterFromLog_length (log : List (Int × ℚ)) :
    (quarterFromLog log).length = 192 := by
  unfold quarterFromLog
  rw [List.length_map, List.length_range]

theorem hourlyFromLog_getD (log : List (Int × ℚ)) (h : Nat) (hh : h < 48) :
    (hourlyFromLog log).getD h 0
      = (if ((log.filter (fun kv => kv.1 = (h : Int))).map Prod.snd) = [] then 3/10
         else ((log.filter (fun kv => kv.1 = (h : Int))).map Prod.snd).sum
           / ((log.filter (fun kv => kv.1 = (h : Int))).map Prod.snd).length) := by
  unfold hourlyFromLog
  rw [List.getD_eq_getElem _ _ (by rw [List.length_map, List.length_range]; exact hh)]
  rw [List.getElem_map, List.getElem_range]

/-- C6: `_parse_tibber_prices_dual` returns an hourly series of exactly 48
slots in which slot `h` is the arithmetic mean of the prices of all entries
whose timestamp lies between one hour before and 48 hours after `now` and
maps to hour `h` (past entries clamped to hour 0), untouched slots keeping
the default 0.30; the 15-minute series always has 192 slots and, when no
entry produced a 15-minute slot, it is exactly the four-fold expansion of
the hourly series. -/
theorem parse_tibber_prices_dual_spec (entries : List PriceEntry) :
    (parseTibberPricesDual entries).1.length = 48
    ∧ (parseTibberPricesDual entries).2.length = 192
    ∧ (∀ h, h < 48 →
        (parseTibberPricesDual entries).1.getD h 0
          = (if tibberHourContribs entries h = [] then 3/10
             else (tibberHourContribs entries h).sum
               / (tibberHourContribs entries h).length))
    ∧ ((∀ e ∈ entries, tibberQuarterKV e = none) →
        (parseTibberPricesDual entries).2
          = expandHourlyTo15min (parseTibberPricesDual entries).1) := by
  have hlog := foldl_tibberStep_eq entries ([], [])
  unfold parseTibberPricesDual
  rw [hlog]
  simp only [List.nil_append]
  refine ⟨hourlyFromLog_length _, ?_, ?_, ?_⟩
  · by_cases hq : entries.filterMap tibberQuarterKV = []
    · rw [if_pos hq]
      exact expandHourlyTo15min_length _
    · rw [if_neg hq]
      exact quarterFromLog_length _
  · intro h hh
    rw [hourlyFromLog_getD _ _ hh, filterMap_filter_snd]
    have hfun : (fun e => match tibberHourKV e with
        | some kv => if kv.1 = (h : Int) then some kv.2 else none
        | none => none)
        = (fun e : PriceEntry => match e.fromMin, e.price with
           | some m, some p =>
               if -60 ≤ m ∧ m < 2880
                  ∧ (if m < 0 then (0 : Int) else ⌊m / 60⌋) = (h : Int)
               then some p else none
           | _, _ => none) := funext (fun e => tibberHourKV_char e h)
    rw [hfun]
    rfl
  · intro hnone
    rw [if_pos (List.filterMap_eq_nil.mpr hnone)]

/-- Witness for C6: a single entry 30 minutes in the future priced 1/2
lands in hour 0 alone, so slot 0 is its own average. -/
theorem parse_tibber_prices_dual_spec_witness :
    (parseTibberPricesDual [⟨some 30, some (1/2)⟩]).1.getD 0 0 = 1/2 := by
  have h := (parse_tibber_prices_dual_spec [⟨some 30, some (1/2)⟩]).2.2.1 0 (by decide)
  rw [h]
  have hc : tibberHourContribs [⟨some 30, some (1/2)⟩] 0 = [1/2] := by
    unfold tibberHourContribs
    rw [List.filterMap_cons, List.filterMap_nil]
    norm_num
  rw [hc]
  norm_num

/-! ### `_parse_entsoe_prices_dual` (claim C5)

Identical in structure to the Tibber parser, except that each entry value
is first normalized: values above 1 are treated as EUR/MWh and divided by
1000 (`if price_value > 1: price_value = price_value / 1000`). -/

/-- The unit heuristic applied to each raw ENTSO-E price value. -/
def entsoeConvert (v : ℚ) : ℚ := if 1 < v then v / 1000 else v

/-- The 15-minute insertion a single ENTSO-E entry performs (stores the
converted value). -/
def entsoeQuarterKV (e : PriceEntry) : Option (Int × ℚ) :=
  match e.fromMin, e.price with
  | some m, some p =>
      let pv := entsoeConvert p
      let s := truncInt (m / 15)
      if -4 ≤ s ∧ s < 192 then
        let idx := max 0 s
        if idx < 192 then some (idx, pv) else none
      else none
  | _, _ => none

/-- The hourly-bucket insertion a single ENTSO-E entry performs (appends the
converted value). -/
def entsoeHourKV (e : PriceEntry) : Option (Int × ℚ) :=
  match e.fromMin, e.price with
  | some m, some p =>
      let pv := entsoeConvert p
      let hd := m / 60
      if -1 ≤ hd ∧ hd < 48 then
        let hidx := max 0 (truncInt hd)
        if hidx < 48 then some (hidx, pv) else none
      else none
  | _, _ => none

/-- One iteration of the entry loop of `_parse_entsoe_prices_dual`. -/
def entsoeStep (acc : List (Int × ℚ) × List (Int × ℚ)) (e : PriceEntry) :
    List (Int × ℚ) × List (Int × ℚ) :=
  ((match entsoeHourKV e with
    | some kv => acc.1 ++ [kv]
    | none => acc.1),
   (match entsoeQuarterKV e with
    | some kv => acc.2 ++ [kv]
    | none => acc.2))

/-- Embedding of `_parse_entsoe_prices_dual`. -/
def parseEntsoePricesDual (entries : List PriceEntry) : List ℚ × List ℚ :=
  let logs := entries.foldl entsoeStep ([], [])
  let hourly := hourlyFromLog logs.1
  let q := if logs.2 = [] then expandHourlyTo15min hourly else quarterFromLog logs.2
  (hourly, q)

theorem foldl_entsoeStep_eq (entries : List PriceEntry)
    (acc : List (Int × ℚ) × List (Int × ℚ)) :
    entries.foldl entsoeStep acc
      = (acc.1 ++ entries.filterMap entsoeHourKV,
         acc.2 ++ entries.filterMap entsoeQuarterKV) := by
  induction entries generalizing acc with
  | nil => simp
  | cons e t ih =>
      rw [List.foldl_cons, ih]
      cases hH : entsoeHourKV e <;> cases hQ : entsoeQuarterKV e <;>
        simp [entsoeStep, hH, hQ]

/-- Applying the unit heuristic to an entry before the (conversion-free)
Tibber slot computation gives exactly the ENTSO-E slot computation. -/
def entsoeAdjust (e : PriceEntry) : PriceEntry :=
  ⟨e.fromMin, e.price.map entsoeConvert⟩

theorem entsoeHourKV_eq_tibber (e : PriceEntry) :
    entsoeHourKV e = tibberHourKV (entsoeAdjust e) := by
  obtain ⟨fm, pr⟩ := e
  cases fm <;> cases pr <;> rfl

/-- Reference description of the ENTSO-E hourly bucket, from the claim's
wording: contributing entries are those in the [-1 h, 48 h) window, and the
stored value is the raw value divided by 1000 when it exceeds 1 and the raw
value unchanged otherwise. -/
def entsoeHourContribs (entries : List PriceEntry) (h : Nat) : List ℚ :=
  entries.filterMap fun e =>
    match e.fromMin, e.price with
    | some m, some p =>
        if -60 ≤ m ∧ m < 2880 ∧ (if m < 0 then (0 : Int) else ⌊m / 60⌋) = (h : Int)
        then some (entsoeConvert p) else none
    | _, _ => none

theorem entsoeHourKV_char (e : PriceEntry) (h : Nat) :
    (match entsoeHourKV e with
     | some kv => if kv.1 = (h : Int) then some kv.2 else none
     | none => none)
    = (match e.fromMin, e.price with
       | some m, some p =>
           if -60 ≤ m ∧ m < 2880 ∧ (if m < 0 then (0 : Int) else ⌊m / 60⌋) = (h : Int)
           then some (entsoeConvert p) else none
       | _, _ => none) := by
  rw [entsoeHourKV_eq_tibber, tibberHourKV_char (entsoeAdjust e) h]
  obtain ⟨fm, pr⟩ := e
  cases fm <;> cases pr <;> rfl

theorem hourlyFromLog_le_one (log : List (Int × ℚ))
    (hb : ∀ kv ∈ log, kv.2 ≤ 1) : ∀ x ∈ hourlyFromLog log, x ≤ 1 := by
  intro x hx
  unfold hourlyFromLog at hx
  rw [List.mem_map] at hx
  obtain ⟨h, _, rfl⟩ := hx
  dsimp only
  by_cases hps : (log.filter (fun kv => kv.1 = (h : Int))).map Prod.snd = []
  · rw [if_pos hps]
    norm_num
  · rw [if_neg hps]
    have hmem : ∀ p ∈ (log.filter (fun kv => kv.1 = (h : Int))).map Prod.snd, p ≤ 1 := by
      intro p hp
      obtain ⟨kv, hkv, rfl⟩ := List.mem_map.mp hp
      exact hb kv (List.mem_filter.mp hkv).1
    have hsum := List.sum_le_card_nsmul _ 1 hmem
    have hlen : 0 < (((log.filter (fun kv => kv.1 = (h : Int))).map Prod.snd).length : ℚ) := by
      have := List.length_pos.mpr hps
      exact_mod_cast this
    rw [div_le_one hlen]
    simpa using hsum

theorem quarterFromLog_le_one (log : List (Int × ℚ))
    (hb : ∀ kv ∈ log, kv.2 ≤ 1) : ∀ x ∈ quarterFromLog log, x ≤ 1 := by
  intro x hx
  unfold quarterFromLog at hx
  rw [List.mem_map] at hx
  obtain ⟨s, _, rfl⟩ := hx
  cases hf : log.reverse.find? (fun kv => kv.1 = (s : Int)) with
  | none => simp only [hf]; norm_num
  | some kv =>
      have hble := hb kv (List.mem_reverse.mp (List.mem_of_find?_eq_some hf))
      simpa only [hf] using hble

theorem mem_expandHourlyTo15min (l : List ℚ) (x : ℚ)
    (hx : x ∈ expandHourlyTo15min l) : x ∈ l ∨ x = 3/10 := by
  rw [expandHourlyTo15min_eq_append] at hx
  rcases List.mem_append.mp hx with hx | hx
  · obtain ⟨a, ha, hxa⟩ := List.mem_flatMap.mp hx
    left
    rw [List.eq_of_mem_replicate hxa]
    exact List.mem_of_mem_take ha
  · right
    exact List.eq_of_mem_replicate hx

theorem entsoe_log_le_one (entries : List PriceEntry)
    (hb : ∀ e ∈ entries, ∀ p, e.price = some p → p ≤ 1000)
    (f : PriceEntry → Option (Int × ℚ))
    (hf : ∀ e kv, f e = some kv → ∃ p, e.price = some p ∧ kv.2 = entsoeConvert p) :
    ∀ kv ∈ entries.filterMap f, kv.2 ≤ 1 := by
  intro kv hkv
  obtain ⟨e, he, hfe⟩ := List.mem_filterMap.mp hkv
  obtain ⟨p, hp, hv⟩ := hf e kv hfe
  have hple := hb e he p hp
  rw [hv]
  unfold entsoeConvert
  by_cases h1 : 1 < p
  · rw [if_pos h1]
    linarith
  · rw [if_neg h1]
    linarith [not_lt.mp h1]

theorem entsoeHourKV_snd (e : PriceEntry) (kv : Int × ℚ)
    (h : entsoeHourKV e = some kv) :
    ∃ p, e.price = some p ∧ kv.2 = entsoeConvert p := by
  obtain ⟨fm, pr⟩ := e
  cases fm with
  | none => simp [entsoeHourKV] at h
  | some m =>
    cases pr with
    | none => simp [entsoeHourKV] at h
    | some p =>
        refine ⟨p, rfl, ?_⟩
        simp only [entsoeHourKV] at h
        split_ifs at h with h1 h2
        · cases h
          rfl

theorem entsoeQuarterKV_snd (e : PriceEntry) (kv : Int × ℚ)
    (h : entsoeQuarterKV e = some kv) :
    ∃ p, e.price = some p ∧ kv.2 = entsoeConvert p := by
  obtain ⟨fm, pr⟩ := e
  cases fm with
  | none => simp [entsoeQuarterKV] at h
  | some m =>
    cases pr with
    | none => simp [entsoeQuarterKV] at h
    | some p =>
        refine ⟨p, rfl, ?_⟩
        simp only [entsoeQuarterKV] at h
        split_ifs at h with h1 h2
        · cases h
          rfl

/-- C5 (amended): each contributing ENTSO-E entry is stored after the unit
heuristic `entsoeConvert` — raw values above 1 are divided by 1000, values
at most 1 are kept unchanged — so hourly slot `h` is the mean of the
converted values of its contributing entries (0.30 when there is none);
and, provided every raw value is at most 1000, no element of either
returned series exceeds 1. -/
theorem parse_entsoe_prices_dual_spec (entries : List PriceEntry) :
    (∀ h, h < 48 →
        (parseEntsoePricesDual entries).1.getD h 0
          = (if entsoeHourContribs entries h = [] then 3/10
             else (entsoeHourContribs entries h).sum
               / (entsoeHourContribs entries h).length))
    ∧ ((∀ e ∈ entries, ∀ p, e.price = some p → p ≤ 1000) →
        (∀ x ∈ (parseEntsoePricesDual entries).1, x ≤ 1)
        ∧ (∀ x ∈ (parseEntsoePricesDual entries).2, x ≤ 1)) := by
  have hlog := foldl_entsoeStep_eq entries ([], [])
  unfold parseEntsoePricesDual
  rw [hlog]
  simp only [List.nil_append]
  constructor
  · intro h hh
    rw [hourlyFromLog_getD _ _ hh, filterMap_filter_snd]
    have hfun : (fun e => match entsoeHourKV e with
        | some kv => if kv.1 = (h : Int) then some kv.2 else none
        | none => none)
        = (fun e : PriceEntry => match e.fromMin, e.price with
           | some m, some p =>
               if -60 ≤ m ∧ m < 2880
                  ∧ (if m < 0 then (0 : Int) else ⌊m / 60⌋) = (h : Int)
               then some (entsoeConvert p) else none
           | _, _ => none) := funext (fun e => entsoeHourKV_char e h)
    rw [hfun]
    rfl
  · intro hb
    have hH := entsoe_log_le_one entries hb entsoeHourKV entsoeHourKV_snd
    have hQ := entsoe_log_le_one entries hb entsoeQuarterKV entsoeQuarterKV_snd
    have h1 : ∀ x ∈ hourlyFromLog (entries.filterMap entsoeHourKV), x ≤ 1 :=
      hourlyFromLog_le_one _ hH
    refine ⟨h1, ?_⟩
    by_cases hq : entries.filterMap entsoeQuarterKV = []
    · rw [if_pos hq]
      intro x hx
      rcases mem_expandHourlyTo15min _ _ hx with hx | hx
      · exact h1 x hx
      · rw [hx]
        norm_num
    · rw [if_neg hq]
      exact quarterFromLog_le_one _ hQ

/-- Witness for C5: a single in-window entry priced 500 EUR/MWh is stored
as 0.5 and hour 0 averages to 0.5. -/
theorem parse_entsoe_prices_dual_spec_witness :
    (parseEntsoePricesDual [⟨some 0, some 500⟩]).1.getD 0 0 = 1/2 := by
  have h := (parse_entsoe_prices_dual_spec [⟨some 0, some 500⟩]).1 0 (by decide)
  rw [h]
  have hc : entsoeHourContribs [⟨some 0, some 500⟩] 0 = [1/2] := by
    unfold entsoeHourContribs
    rw [List.filterMap_cons, List.filterMap_nil]
    norm_num [entsoeConvert]
  rw [hc]
  norm_num

/-- Counterexample to C5 as stated: a raw ENTSO-E value of 2000 EUR/MWh is
divided by 1000 but still stores the price 2 > 1 in the hourly series, so
"no stored ENTSO-E price ever exceeds 1" is false. -/
theorem parse_entsoe_stored_price_gt_one :
    (parseEntsoePricesDual [⟨some 0, some 2000⟩]).1.getD 0 0 = 2
    ∧ ¬ ((parseEntsoePricesDual [⟨some 0, some 2000⟩]).1.getD 0 0 ≤ 1) := by
  have hlog := foldl_entsoeStep_eq [(⟨some 0, some 2000⟩ : PriceEntry)] ([], [])
  have hkv : entsoeHourKV ⟨some 0, some 2000⟩ = some (0, 2) := by
    unfold entsoeHourKV entsoeConvert truncInt
    norm_num
  have hfm : List.filterMap entsoeHourKV [(⟨some 0, some 2000⟩ : PriceEntry)] = [(0, 2)] := by
    rw [List.filterMap_cons, hkv, List.filterMap_nil]
  have hval : (parseEntsoePricesDual [⟨some 0, some 2000⟩]).1.getD 0 0 = 2 := by
    unfold parseEntsoePricesDual
    rw [hlog]
    simp only [List.nil_append]
    rw [hfm, hourlyFromLog_getD _ _ (by norm_num)]
    norm_num
  exact ⟨hval, by rw [hval]; norm_num⟩

/-! ### `EOSDataUpdateCoordinator._update_savings` (claim C7)

The savings tracker fields read or written by `_update_savings`.  `soc` and
`lastSoc` are percentages; the energy flow is
`(soc_change / 100) * battery_capacity_wh / 1000` kWh. -/

structure SavingsTracker where
  total_savings_eur : ℚ
  total_grid_cost_eur : ℚ
  total_charged_kwh : ℚ
  total_discharged_kwh : ℚ
  total_grid_import_kwh : ℚ
  total_pv_charged_kwh : ℚ
  total_grid_charged_kwh : ℚ
  session_savings_eur : ℚ
  session_charged_kwh : ℚ
  session_discharged_kwh : ℚ
  session_pv_charged_kwh : ℚ
  session_grid_charged_kwh : ℚ
  avg_charge_price : ℚ
  avg_discharge_price : ℚ
  today_savings_eur : ℚ
  today_grid_cost_eur : ℚ
  today_pv_charged_kwh : ℚ
  today_grid_charged_kwh : ℚ
  today_date : String
  deriving DecidableEq, Repr

/-- Embedding of `_update_savings`.  Returns the new tracker and the new
`_last_soc`.  The early `return` on an empty price list (the battery
dataclass is always truthy), the day-change reset, the first-update skip,
the dead-band of 0.01 kWh, and the charge/discharge branches follow the
source; `mode` is `data.control.mode` and `today` the current date string. -/
def updateSavings (capacity feedIn : ℚ) (lastSoc : Option ℚ) (soc : ℚ)
    (prices : List ℚ) (mode : InverterMode) (today : String)
    (s : SavingsTracker) : SavingsTracker × Option ℚ :=
  if prices = [] then (s, lastSoc)
  else
    let current_price := prices.headD (3/10)
    let s0 := if s.today_date ≠ today then
        { s with today_date := today, today_savings_eur := 0, today_grid_cost_eur := 0,
                 today_pv_charged_kwh := 0, today_grid_charged_kwh := 0 }
      else s
    match lastSoc with
    | none => (s0, some soc)
    | some last =>
        let soc_change := soc - last
        let energy_wh := soc_change / 100 * capacity
        let energy_kwh := energy_wh / 1000
        if |energy_kwh| < 1/100 then (s0, some soc)
        else if 0 < energy_kwh then
          let charge_price := if mode = .chargeFromGrid then current_price else feedIn
          let s1 := if mode = .chargeFromGrid then
              { s0 with
                total_grid_import_kwh := s0.total_grid_import_kwh + energy_kwh,
                total_grid_cost_eur := s0.total_grid_cost_eur + energy_kwh * current_price,
                today_grid_cost_eur := s0.today_grid_cost_eur + energy_kwh * current_price,
                total_grid_charged_kwh := s0.total_grid_charged_kwh + energy_kwh,
                session_grid_charged_kwh := s0.session_grid_charged_kwh + energy_kwh,
                today_grid_charged_kwh := s0.today_grid_charged_kwh + energy_kwh }
            else
              { s0 with
                total_pv_charged_kwh := s0.total_pv_charged_kwh + energy_kwh,
                session_pv_charged_kwh := s0.session_pv_charged_kwh + energy_kwh,
                today_pv_charged_kwh := s0.today_pv_charged_kwh + energy_kwh }
          let s2 := { s1 with
            total_charged_kwh := s1.total_charged_kwh + energy_kwh,
            session_charged_kwh := s1.session_charged_kwh + energy_kwh }
          let old_total := s2.total_charged_kwh - energy_kwh
          let s3 := if 0 < old_total then
              { s2 with avg_charge_price :=
                  (s2.avg_charge_price * old_total + charge_price * energy_kwh)
                    / s2.total_charged_kwh }
            else { s2 with avg_charge_price := charge_price }
          (s3, some soc)
        else
          let discharged_kwh := |energy_kwh|
          let s1 := { s0 with
            total_discharged_kwh := s0.total_discharged_kwh + discharged_kwh,
            session_discharged_kwh := s0.session_discharged_kwh + discharged_kwh,
            avg_discharge_price := current_price }
          let s2 := if 0 < s1.avg_charge_price then
              { s1 with
                total_savings_eur := s1.total_savings_eur
                  + (current_price - s1.avg_charge_price) * discharged_kwh,
                session_savings_eur := s1.session_savings_eur
                  + (current_price - s1.avg_charge_price) * discharged_kwh,
                today_savings_eur := s1.today_savings_eur
                  + (current_price - s1.avg_charge_price) * discharged_kwh }
            else s1
          (s2, some soc)

/-- C7: with a previous SOC recorded and a non-empty price list, a discharge
of at least 0.01 kWh (computed as SOC change over 100 times the capacity)
with a positive weighted average charge price adds exactly
(current price − average charge price) × discharged kWh to the total,
session and today savings counters (the today counter on top of its
day-reset base); and a charge of at least 0.01 kWh updates the average
charge price to the energy-weighted mean of the previous average and the
new charge price, which is the grid price in CHARGE_FROM_GRID mode and the
configured feed-in price otherwise. -/
theorem update_savings_spec (capacity feedIn soc l e price0 : ℚ) (rest : List ℚ)
    (mode : InverterMode) (today : String) (s : SavingsTracker)
    (he : e = (soc - l) / 100 * capacity / 1000) :
    (e ≤ -(1/100) → 0 < s.avg_charge_price →
        (updateSavings capacity feedIn (some l) soc (price0 :: rest) mode today s).1.total_savings_eur
            = s.total_savings_eur + (price0 - s.avg_charge_price) * (-e)
        ∧ (updateSavings capacity feedIn (some l) soc (price0 :: rest) mode today s).1.session_savings_eur
            = s.session_savings_eur + (price0 - s.avg_charge_price) * (-e)
        ∧ (updateSavings capacity feedIn (some l) soc (price0 :: rest) mode today s).1.today_savings_eur
            = (if s.today_date = today then s.today_savings_eur else 0)
              + (price0 - s.avg_charge_price) * (-e))
    ∧ (1/100 ≤ e → 0 ≤ s.total_charged_kwh →
        (updateSavings capacity feedIn (some l) soc (price0 :: rest) mode today s).1.avg_charge_price
          = (s.avg_charge_price * s.total_charged_kwh
              + (if mode = InverterMode.chargeFromGrid then price0 else feedIn) * e)
            / (s.total_charged_kwh + e)) := by
  unfold updateSavings
  rw [if_neg (by simp : ¬ (price0 :: rest) = [])]
  simp only [List.headD_cons]
  rw [← he]
  have hAvg : (if s.today_date ≠ today then
      { s with today_date := today, today_savings_eur := 0, today_grid_cost_eur := 0,
               today_pv_charged_kwh := 0, today_grid_charged_kwh := 0 }
    else s).avg_charge_price = s.avg_charge_price := by
    split_ifs <;> rfl
  have hTot : (if s.today_date ≠ today then
      { s with today_date := today, today_savings_eur := 0, today_grid_cost_eur := 0,
               today_pv_charged_kwh := 0, today_grid_charged_kwh := 0 }
    else s).total_charged_kwh = s.total_charged_kwh := by
    split_ifs <;> rfl
  have hTS : (if s.today_date ≠ today then
      { s with today_date := today, today_savings_eur := 0, today_grid_cost_eur := 0,
               today_pv_charged_kwh := 0, today_grid_charged_kwh := 0 }
    else s).total_savings_eur = s.total_savings_eur := by
    split_ifs <;> rfl
  have hSS : (if s.today_date ≠ today then
      { s with today_date := today, today_savings_eur := 0, today_grid_cost_eur := 0,
               today_pv_charged_kwh := 0, today_grid_charged_kwh := 0 }
    else s).session_savings_eur = s.session_savings_eur := by
    split_ifs <;> rfl
  have hToday : (if s.today_date ≠ today then
      { s with today_date := today, today_savings_eur := 0, today_grid_cost_eur := 0,
               today_pv_charged_kwh := 0, today_grid_charged_kwh := 0 }
    else s).today_savings_eur = (if s.today_date = today then s.today_savings_eur else 0) := by
    by_cases hd : s.today_date = today
    · rw [if_neg (not_not_intro hd), if_pos hd]
    · rw [if_pos hd, if_neg hd]
  constructor
  · intro h1 h2
    have habs : ¬ (|e| < 1/100) := by
      rw [abs_of_nonpos (by linarith)]
      intro hcon
      linarith
    have hpos : ¬ (0 < e) := by linarith
    rw [if_neg habs, if_neg hpos]
    have hnegabs : |e| = -e := abs_of_nonpos (by linarith)
    rw [hnegabs]
    dsimp only
    rw [hAvg, if_pos h2]
    rw [hTS, hSS, hToday]
    exact ⟨rfl, rfl, rfl⟩
  · intro h1 h2
    have habs : ¬ (|e| < 1/100) := by
      rw [abs_of_nonneg (by linarith)]
      intro hcon
      linarith
    have hpos : (0 : ℚ) < e := by linarith
    have hen : e ≠ 0 := by linarith
    rw [if_neg habs, if_pos hpos]
    by_cases hm : mode = InverterMode.chargeFromGrid
    · simp only [if_pos hm]
      rw [hAvg, hTot]
      by_cases hot : 0 < s.total_charged_kwh
      · rw [if_pos (by linarith : (0:ℚ) < s.total_charged_kwh + e - e)]
        dsimp only
        rw [show s.total_charged_kwh + e - e = s.total_charged_kwh from by ring]
      · have htz : s.total_charged_kwh = 0 := le_antisymm (not_lt.mp hot) h2
        have hte : s.total_charged_kwh + e - e = 0 := by rw [htz]; ring
        rw [if_neg (by rw [hte]; exact lt_irrefl 0)]
        dsimp only
        rw [htz, mul_zero, zero_add, zero_add, mul_div_assoc, div_self hen, mul_one]
    · simp only [if_neg hm]
      rw [hAvg, hTot]
      by_cases hot : 0 < s.total_charged_kwh
      · rw [if_pos (by linarith : (0:ℚ) < s.total_charged_kwh + e - e)]
        dsimp only
        rw [show s.total_charged_kwh + e - e = s.total_charged_kwh from by ring]
      · have htz : s.total_charged_kwh = 0 := le_antisymm (not_lt.mp hot) h2
        have hte : s.total_charged_kwh + e - e = 0 := by rw [htz]; ring
        rw [if_neg (by rw [hte]; exact lt_irrefl 0)]
        dsimp only
        rw [htz, mul_zero, zero_add, zero_add, mul_div_assoc, div_self hen, mul_one]

/-- Witness for C7: capacity 10 kWh, SOC dropping from 50 % to 40 %
(1 kWh discharged) at price 0.30 with an average charge price of 0.10
yields 0.20 EUR of savings. -/
theorem update_savings_spec_witness :
    (updateSavings 10000 (8/100) (some 50) 40 [3/10] InverterMode.auto "d"
        ⟨0, 0, 0, 0, 0, 0, 0, 0, 0, 0, 0, 0, 1/10, 0, 0, 0, 0, 0, "d"⟩).1.total_savings_eur
      = 1/5 := by
  have h := (update_savings_spec 10000 (8/100) 40 50 (-1) (3/10) []
      InverterMode.auto "d" ⟨0, 0, 0, 0, 0, 0, 0, 0, 0, 0, 0, 0, 1/10, 0, 0, 0, 0, 0, "d"⟩
      (by norm_num)).1 (by norm_num) (by norm_num)
  rw [h.1]
  norm_num

/-! ### `EOSDataUpdateCoordinator._set_evcc_mode_if_changed` (claim C10) -/

/-- Outcome of one `async_set_evcc_battery_mode` call as observed by
`_set_evcc_mode_if_changed`: the call returned True, returned False, or
raised (the surrounding `try` logs and swallows the exception). -/
inductive EvccCallResult where
  | success
  | failure
  | raised
  deriving DecidableEq, Repr

/-- Embedding of `_set_evcc_mode_if_changed`: return early when the
requested mode equals `_last_evcc_mode`; otherwise issue the API call and
record the mode only when the call returned True.  The result is the new
`_last_evcc_mode` paired with `some mode` when an API call was issued and
`none` when the call was skipped. -/
def setEvccModeIfChanged (last : Option String) (mode : String)
    (call : EvccCallResult) : Option String × Option String :=
  if some mode = last then (last, none)
  else
    match call with
    | .success => (some mode, some mode)
    | .failure => (last, some mode)
    | .raised => (last, some mode)

/-- A sequence of sync cycles: each cycle computes a target mode and, when
a call is issued, observes a call result.  Returns the final
`_last_evcc_mode` and the log of issued calls with their results. -/
def runEvccCycles (last : Option String) :
    List (String × EvccCallResult) → Option String × List (String × EvccCallResult)
  | [] => (last, [])
  | (m, r) :: rest =>
      let step := setEvccModeIfChanged last m r
      let next := runEvccCycles step.1 rest
      (next.1,
       (match step.2 with
        | some m' => [(m', r)]
        | none => []) ++ next.2)

/-- The modes of the successful calls in an issued-call log, in order. -/
def evccSuccesses (log : List (String × EvccCallResult)) : List String :=
  (log.filter (fun c => c.2 = EvccCallResult.success)).map Prod.fst

theorem runEvccCycles_successes (cycles : List (String × EvccCallResult)) :
    ∀ last : Option String,
      List.Chain' (· ≠ ·) (evccSuccesses (runEvccCycles last cycles).2)
      ∧ (∀ x, (evccSuccesses (runEvccCycles last cycles).2).head? = some x →
          some x ≠ last) := by
  induction cycles with
  | nil =>
      intro last
      simp [runEvccCycles, evccSuccesses]
  | cons c rest ih =>
      intro last
      obtain ⟨m, r⟩ := c
      by_cases hskip : some m = last
      · have hstep : setEvccModeIfChanged last m r = (last, none) := by
          unfold setEvccModeIfChanged
          rw [if_pos hskip]
        simp only [runEvccCycles, hstep, List.nil_append]
        exact ih last
      · cases r with
        | success =>
            have hstep : setEvccModeIfChanged last m .success = (some m, some m) := by
              unfold setEvccModeIfChanged
              rw [if_neg hskip]
            simp only [runEvccCycles, hstep, List.singleton_append]
            have hih := ih (some m)
            constructor
            · rw [show evccSuccesses ((m, EvccCallResult.success)
                  :: (runEvccCycles (some m) rest).2)
                  = m :: evccSuccesses (runEvccCycles (some m) rest).2 from by
                    simp [evccSuccesses]]
              rw [List.chain'_cons']
              refine ⟨?_, hih.1⟩
              intro y hy
              have := hih.2 y hy
              intro heq
              exact this (by rw [heq])
            · intro x hx
              rw [show evccSuccesses ((m, EvccCallResult.success)
                  :: (runEvccCycles (some m) rest).2)
                  = m :: evccSuccesses (runEvccCycles (some m) rest).2 from by
                    simp [evccSuccesses]] at hx
              simp only [List.head?_cons, Option.some.injEq] at hx
              rw [← hx]
              exact hskip
        | failure =>
            have hstep : setEvccModeIfChanged last m .failure = (last, some m) := by
              unfold setEvccModeIfChanged
              rw [if_neg hskip]
            simp only [runEvccCycles, hstep, List.singleton_append]
            have hdrop : evccSuccesses ((m, EvccCallResult.failure)
                :: (runEvccCycles last rest).2)
                = evccSuccesses (runEvccCycles last rest).2 := by
              simp [evccSuccesses]
            rw [hdrop]
            exact ih last
        | raised =>
            have hstep : setEvccModeIfChanged last m .raised = (last, some m) := by
              unfold setEvccModeIfChanged
              rw [if_neg hskip]
            simp only [runEvccCycles, hstep, List.singleton_append]
            have hdrop : evccSuccesses ((m, EvccCallResult.raised)
                :: (runEvccCycles last rest).2)
                = evccSuccesses (runEvccCycles last rest).2 := by
              simp [evccSuccesses]
            rw [hdrop]
            exact ih last

/-- C10: `_set_evcc_mode_if_changed` issues an EVCC call only when the
requested mode differs from `_last_evcc_mode`, updates `_last_evcc_mode`
only after a call that returned True, and consequently, over any sequence
of sync cycles starting from the initial `None`, no two consecutive
successful API calls carry the same mode. -/
theorem set_evcc_mode_if_changed_spec :
    (∀ (last : Option String) (mode : String) (call : EvccCallResult),
        ((setEvccModeIfChanged last mode call).2 = some mode ↔ some mode ≠ last)
        ∧ (some mode = last → (setEvccModeIfChanged last mode call).2 = none)
        ∧ (call ≠ .success → (setEvccModeIfChanged last mode call).1 = last)
        ∧ (some mode ≠ last → call = .success →
            (setEvccModeIfChanged last mode call).1 = some mode))
    ∧ (∀ cycles : List (String × EvccCallResult),
        List.Chain' (· ≠ ·) (evccSuccesses (runEvccCycles none cycles).2)) := by
  constructor
  · intro last mode call
    refine ⟨⟨?_, ?_⟩, ?_, ?_, ?_⟩
    · intro h heq
      unfold setEvccModeIfChanged at h
      rw [if_pos heq] at h
      cases call <;> simp at h
    · intro hne
      unfold setEvccModeIfChanged
      rw [if_neg hne]
      cases call <;> rfl
    · intro heq
      unfold setEvccModeIfChanged
      rw [if_pos heq]
    · intro hcall
      unfold setEvccModeIfChanged
      by_cases heq : some mode = last
      · rw [if_pos heq]
      · rw [if_neg heq]
        cases call with
        | success => exact absurd rfl hcall
        | failure => rfl
        | raised => rfl
    · intro hne hcall
      subst hcall
      unfold setEvccModeIfChanged
      rw [if_neg hne]
  · intro cycles
    exact (runEvccCycles_successes cycles none).1

/-- Witness for C10: with `_last_evcc_mode = hold`, a successful call for
`charge` records the new mode. -/
theorem set_evcc_mode_if_changed_spec_witness :
    (setEvccModeIfChanged (some "hold") "charge" .success).1 = some "charge" :=
  (set_evcc_mode_if_changed_spec.1 (some "hold") "charge" .success).2.2.2
    (by decide) rfl

/-! ### The advisory lock of `EOSApiClient` (claim C8)

`__init__` creates a single `asyncio.Lock`; the whole bodies of
`async_update` and `async_run_optimization` execute inside
`async with self._lock`.  The interleaving of the two coroutines is
modelled as a two-task transition system over the actions each method
performs in source order; awaited body steps have no lock precondition of
their own, so mutual exclusion must come from the acquire/release
bracketing alone. -/

inductive LockAction where
  | acquire
  | work (tag : String)
  | release
  deriving DecidableEq, Repr

/-- The action sequence of `async_update`: `async with self._lock` then
the body's awaited steps in source order. -/
def asyncUpdateProg : List LockAction :=
  [.acquire,
   .work "update_battery_soc", .work "update_load_data",
   .work "update_pv_forecast", .work "update_prices",
   .work "update_battery_state", .work "set_last_update_state",
   .release]

/-- The action sequence of `async_run_optimization`: the same lock, then
the data refresh, request build, HTTP round trip and response handling. -/
def asyncRunOptimizationProg : List LockAction :=
  [.acquire,
   .work "update_battery_soc", .work "update_load_data",
   .work "update_pv_forecast", .work "update_prices",
   .work "update_battery_state", .work "build_optimization_request",
   .work "post_optimize", .work "handle_response",
   .release]

def progOf : Fin 2 → List LockAction
  | 0 => asyncUpdateProg
  | 1 => asyncRunOptimizationProg

/-- A scheduler state: each task's program counter and the lock owner. -/
structure LockSystemState where
  pc : Fin 2 → Nat
  lock : Option (Fin 2)

def lockInitState : LockSystemState := ⟨fun _ => 0, none⟩

/-- Interleaving semantics: a task may always be scheduled for its next
action; `acquire` fires only when the lock is free and takes it, `release`
frees it, and a `work` step only advances the program counter. -/
inductive LockStep : LockSystemState → LockSystemState → Prop where
  | acquire (s : LockSystemState) (i : Fin 2)
      (hpc : (progOf i).get? (s.pc i) = some .acquire)
      (hfree : s.lock = none) :
      LockStep s ⟨Function.update s.pc i (s.pc i + 1), some i⟩
  | work (s : LockSystemState) (i : Fin 2) (tag : String)
      (hpc : (progOf i).get? (s.pc i) = some (.work tag)) :
      LockStep s ⟨Function.update s.pc i (s.pc i + 1), s.lock⟩
  | release (s : LockSystemState) (i : Fin 2)
      (hpc : (progOf i).get? (s.pc i) = some .release) :
      LockStep s ⟨Function.update s.pc i (s.pc i + 1), none⟩

inductive LockReachable : LockSystemState → Prop where
  | init : LockReachable lockInitState
  | step {s t : LockSystemState} :
      LockReachable s → LockStep s t → LockReachable t

/-- Task `i` is inside its `async with` block (it has acquired and not yet
released). -/
def inCritical (s : LockSystemState) (i : Fin 2) : Prop :=
  1 ≤ s.pc i ∧ s.pc i < (progOf i).length

theorem get?_some_lt {i : Fin 2} {pcv : Nat} {a : LockAction}
    (h : (progOf i).get? pcv = some a) : pcv < (progOf i).length := by
  by_contra hge
  rw [List.get?_eq_none.mpr (Nat.le_of_not_lt hge)] at h
  exact Option.noConfusion h

theorem acquire_pos {i : Fin 2} {pcv : Nat}
    (h : (progOf i).get? pcv = some .acquire) : pcv = 0 := by
  have hlt := get?_some_lt h
  fin_cases i <;>
    simp only [progOf, asyncUpdateProg, asyncRunOptimizationProg,
      List.length_cons, List.length_nil] at hlt h <;>
    interval_cases pcv <;> simp_all

theorem work_pos {i : Fin 2} {pcv : Nat} {tag : String}
    (h : (progOf i).get? pcv = some (.work tag)) :
    1 ≤ pcv ∧ pcv + 1 < (progOf i).length := by
  have hlt := get?_some_lt h
  fin_cases i <;>
    simp only [progOf, asyncUpdateProg, asyncRunOptimizationProg,
      List.length_cons, List.length_nil] at hlt h ⊢ <;>
    interval_cases pcv <;> simp_all

theorem release_pos {i : Fin 2} {pcv : Nat}
    (h : (progOf i).get? pcv = some .release) :
    1 ≤ pcv ∧ pcv + 1 = (progOf i).length := by
  have hlt := get?_some_lt h
  fin_cases i <;>
    simp only [progOf, asyncUpdateProg, asyncRunOptimizationProg,
      List.length_cons, List.length_nil] at hlt h ⊢ <;>
    interval_cases pcv <;> simp_all

/-- The inductive invariant: any task inside its `async with` block owns
the lock. -/
def LockInv (s : LockSystemState) : Prop :=
  ∀ i : Fin 2, inCritical s i → s.lock = some i

theorem lockInv_init : LockInv lockInitState := by
  intro i hi
  exact absurd hi.1 (by simp [lockInitState])

theorem lockInv_step {s t : LockSystemState} (hInv : LockInv s)
    (hstep : LockStep s t) : LockInv t := by
  cases hstep with
  | acquire i hpc hfree =>
      intro j hj
      by_cases hij : j = i
      · simp [hij]
      · obtain ⟨hj1, hj2⟩ := hj
        simp only [Function.update_noteq hij] at hj1 hj2
        have := hInv j ⟨hj1, hj2⟩
        rw [hfree] at this
        exact Option.noConfusion this
  | work i tag hpc =>
      intro j hj
      by_cases hij : j = i
      · subst hij
        have hw := work_pos hpc
        exact hInv j ⟨hw.1, get?_some_lt hpc⟩
      · obtain ⟨hj1, hj2⟩ := hj
        simp only [Function.update_noteq hij] at hj1 hj2
        exact hInv j ⟨hj1, hj2⟩
  | release i hpc =>
      intro j hj
      by_cases hij : j = i
      · subst hij
        obtain ⟨hj1, hj2⟩ := hj
        simp only [Function.update_same] at hj1 hj2
        have hr := release_pos hpc
        omega
      · obtain ⟨hj1, hj2⟩ := hj
        simp only [Function.update_noteq hij] at hj1 hj2
        have h1 := hInv j ⟨hj1, hj2⟩
        have hr := release_pos hpc
        have h2 := hInv i ⟨hr.1, get?_some_lt hpc⟩
        rw [h1] at h2
        exact absurd (Option.some.inj h2) hij

theorem lockInv_reachable {s : LockSystemState} (hs : LockReachable s) :
    LockInv s := by
  induction hs with
  | init => exact lockInv_init
  | step _ hstep ih => exact lockInv_step ih hstep

/-- C8: both method bodies run only while holding the single client lock,
so in every reachable interleaving of `async_update` and
`async_run_optimization` at most one of the two bodies is in progress —
the update and optimization cycles never interleave. -/
theorem update_optimization_serialized (s : LockSystemState)
    (hs : LockReachable s) :
    (∀ i : Fin 2, inCritical s i → s.lock = some i)
    ∧ ¬ (inCritical s 0 ∧ inCritical s 1) := by
  have hInv := lockInv_reachable hs
  refine ⟨hInv, ?_⟩
  rintro ⟨h0, h1⟩
  have e0 := hInv 0 h0
  have e1 := hInv 1 h1
  rw [e0] at e1
  exact absurd (Option.some.inj e1) (by decide)

/-- Witness for C8: the initial state, with both coroutines not yet
started, is reachable and trivially exclusive. -/
theorem update_optimization_serialized_witness :
    ¬ (inCritical lockInitState 0 ∧ inCritical lockInitState 1) :=
  (update_optimization_serialized lockInitState LockReachable.init).2

end EOS


